import Mathlib

/-!
Shallow embedding of the stark-spenda off-ramp saga.

Sources embedded here:
* `utils/polling.ts` : `pollWithTimeout`, `exponentialBackoff`
* `utils/wallet.ts`  : `formatPrivateKey`
* the off-ramp route (`POST`): validation, bridge poll, pricing, the Base
  settlement transfer (`executeBaseTransfer`) and the payout poll
* the webhook route (`POST` + `verifySignature`)
* `useTokenBalance` : the declared token decimal table

JavaScript numbers are modelled over `ℚ` (the claims settled here concern
exponents and data flow, not floating-point rounding), machine time over `ℕ`
milliseconds, and external calls (HTTP fetches, HMAC, JSON.parse, the chain
wallet) as explicit function parameters or environment fields recording what
the code passes to them and what they answer.
-/

/-- Observable events of one `pollWithTimeout` run: the n-th fetch call, or a
sleep of one interval. -/
inductive PollEv : Type
  | fetch (n : ℕ)
  | sleep
deriving DecidableEq, Repr

/-- Fuel-indexed body of `pollWithTimeout` (polling.ts lines 1-20).  `e` is
the elapsed time `Date.now() - startTime`, `n` the index of the next fetch,
`f n` the value the n-th fetch resolves to, `lat n` its latency.  Mirrors the
JS loop: while `e < timeout`, fetch; return on a terminal result; otherwise
sleep `interval` and loop; past the deadline throw
`Error("Polling timeout exceeded")`.  Returns the outcome, the event trace and
the final elapsed time; `none` only on fuel exhaustion (ruled out below for
positive `interval`). -/
def pollAux {T : Type} (f : ℕ → T) (lat : ℕ → ℕ) (cond : T → Bool)
    (interval timeout : ℕ) : ℕ → ℕ → ℕ → Option (Except String T × List PollEv × ℕ)
  | 0, _, _ => none
  | fuel + 1, e, n =>
    if e < timeout then
      let r := f n
      let e1 := e + lat n
      if cond r then
        some (Except.ok r, [PollEv.fetch n], e1)
      else
        match pollAux f lat cond interval timeout fuel (e1 + interval) (n + 1) with
        | none => none
        | some (res, evs, ef) => some (res, PollEv.fetch n :: PollEv.sleep :: evs, ef)
    else
      some (Except.error "Polling timeout exceeded", [], e)

/-- Embedding of `pollWithTimeout` (polling.ts): run the loop from elapsed
time 0 and fetch index 0.  Fuel `timeout + 1` is enough whenever
`interval ≥ 1` (each loop iteration advances elapsed time by at least
`interval`). -/
def pollWithTimeout {T : Type} (f : ℕ → T) (lat : ℕ → ℕ) (cond : T → Bool)
    (interval timeout : ℕ) : Option (Except String T × List PollEv × ℕ) :=
  pollAux f lat cond interval timeout (timeout + 1) 0 0

/-- Result of `exponentialBackoff` (polling.ts lines 22-37): a resolved value,
a re-raised error, or the silent `undefined` the JS function resolves to when
the `for` loop body never runs. -/
inductive RetryOutcome (E T : Type) : Type
  | ok (t : T)
  | err (e : E)
  | silent
deriving DecidableEq, Repr

/-- Loop body of `exponentialBackoff`.  `rem` is the number of loop iterations
still allowed, `i` the current attempt index, `op i` the outcome of the i-th
invocation of `fn`.  Returns the outcome, the list of delays slept (in order)
and the number of invocations performed.  Mirrors the JS source: on success
return; on error re-throw if `i === maxRetries - 1`, otherwise sleep
`baseDelay * 2 ^ i` and continue. -/
def backoffAux {E T : Type} (op : ℕ → Except E T) (baseDelay : ℕ) :
    ℕ → ℕ → RetryOutcome E T × List ℕ × ℕ
  | 0, _ => (RetryOutcome.silent, [], 0)
  | rem + 1, i =>
    match op i with
    | Except.ok t => (RetryOutcome.ok t, [], 1)
    | Except.error e =>
      if rem = 0 then (RetryOutcome.err e, [], 1)
      else
        let rest := backoffAux op baseDelay rem (i + 1)
        (rest.1, baseDelay * 2 ^ i :: rest.2.1, rest.2.2 + 1)

/-- Embedding of `exponentialBackoff` (polling.ts).  `maxRetries` is an
integer because the JS `for (let i = 0; i < maxRetries; i++)` loop runs
`max 0 maxRetries` iterations: a non-positive bound means zero iterations and
the function resolves to `undefined` (`RetryOutcome.silent`). -/
def exponentialBackoff {E T : Type} (op : ℕ → Except E T) (maxRetries : ℤ)
    (baseDelay : ℕ) : RetryOutcome E T × List ℕ × ℕ :=
  backoffAux op baseDelay maxRetries.toNat 0

/-- Character class of the regex `[0-9a-fA-F]` used by `formatPrivateKey`. -/
def isHexDigitChar (c : Char) : Bool :=
  c.isDigit || ('a' ≤ c && c ≤ 'f') || ('A' ≤ c && c ≤ 'F')

/-- Test of `privateKey.startsWith("0x")`, expressed on the character list of
the string. -/
def startsWith0x (s : String) : Bool :=
  s.toList.take 2 == ['0', 'x']

/-- Bool version of the `formatPrivateKey` validation regex
`^0x[0-9a-fA-F]{64}$` (wallet.ts): a `0x` prefix followed by exactly 64 hex
characters. -/
def matchesPrivateKeyPattern (s : String) : Bool :=
  startsWith0x s && s.length == 66 && (s.toList.drop 2).all isHexDigitChar

/-- The `formattedKey` step of `formatPrivateKey`: prepend `0x` unless the
input already starts with it. -/
def withHexPrefix (s : String) : String :=
  if startsWith0x s then s else "0x" ++ s

/-- Embedding of `formatPrivateKey` (wallet.ts lines 20-36).  The argument is
optional because the TS parameter is; the JS guard `!privateKey` is true for
both `undefined` and the empty string.  Errors model the thrown `Error`s. -/
def formatPrivateKey (privateKey : Option String) : Except String String :=
  match privateKey with
  | none => Except.error "Private key is required"
  | some pk =>
    if pk = "" then Except.error "Private key is required"
    else
      let formattedKey := withHexPrefix pk
      if matchesPrivateKeyPattern formattedKey then Except.ok formattedKey
      else Except.error "Invalid private key format"

/-- Token decimal table from `useTokenBalance`: 6 for USDT/USDC, 18 for
ETH/DAI, 18 otherwise. -/
def tokenDecimals (tokenTicker : String) : ℕ :=
  if tokenTicker = "USDT" ∨ tokenTicker = "USDC" then 6
  else if tokenTicker = "ETH" ∨ tokenTicker = "DAI" then 18
  else 18

/-- One ERC-20 transfer submitted by the settlement wallet on Base. -/
structure BaseTransfer : Type where
  toAddr : String
  amountBaseUnits : ℤ
deriving DecidableEq, Repr

/-- Embedding of `executeBaseTransfer` (off-ramp route):
`totalAmount = BigInt(Math.floor((amount + senderFee + txFee) * 10 ** 6))`,
then `writeContract` submits the USDC transfer and the transaction hash is
returned.  The wallet is modelled as the list of transfers submitted so far;
each call unconditionally appends one transfer and yields a fresh hash.  The
source has no idempotency key, no recorded-hash lookup and no rejection
path. -/
def executeBaseTransfer (chain : List BaseTransfer) (toAddr : String)
    (amount senderFee txFee : ℚ) : List BaseTransfer × String :=
  let totalAmount : ℤ := Rat.floor ((amount + senderFee + txFee) * 10 ^ 6)
  (chain ++ [⟨toAddr, totalAmount⟩], "0x" ++ toString chain.length)

/-- Statuses `pollLayerSwapStatus` treats as terminal:
`["fulfilled", "completed", "failed"].includes(result.status)`. -/
def bridgeTerminalStatuses : List String := ["fulfilled", "completed", "failed"]

/-- Statuses `pollPaycrestStatus` treats as terminal:
`["validated", "settled", "refunded", "expired"].includes(result.status)`. -/
def paycrestTerminalStatuses : List String := ["validated", "settled", "refunded", "expired"]

/-- Terminal-condition predicate passed by `pollLayerSwapStatus` to the
polling engine. -/
def isBridgeTerminal (s : String) : Bool := bridgeTerminalStatuses.contains s

/-- Terminal-condition predicate passed by `pollPaycrestStatus` to the
polling engine. -/
def isPaycrestTerminal (s : String) : Bool := paycrestTerminalStatuses.contains s

/-- Quote attached to a LayerSwap swap (types/offramp.ts). -/
structure LayerSwapQuote : Type where
  receive_amount : ℚ
  min_receive_amount : ℚ
  blockchain_fee : ℚ
  service_fee : ℚ
  total_fee : ℚ
deriving DecidableEq, Repr

/-- Paycrest order fields the route uses (types/offramp.ts). -/
structure PaycrestOrder : Type where
  id : String
  receiveAddress : String
  senderFee : ℚ
  transactionFee : ℚ
deriving DecidableEq, Repr

/-- HTTP responses the off-ramp route can produce: the explicit 400s, the
explicit 500 `Bridge failed`, the success body carrying the final payout
status, and the catch-all 500 `Internal server error` that every thrown error
(poll timeout included) is mapped to. -/
inductive ApiResponse : Type
  | invalidRequest
  | invalidSwapState
  | bridgeFailed
  | success (finalStatus : String)
  | internalError
deriving DecidableEq, Repr

/-- External world of one off-ramp request: the validation verdict of the
request body, the fetched swap, what each bridge/payout status poll returns,
the gasless-compatibility answer, and the Paycrest rate and order the
providers answer with. -/
structure OffRampEnv : Type where
  validRequest : Bool
  swapStatus : String
  hasDepositAction : Bool
  quote : LayerSwapQuote
  gaslessCompatible : Bool
  bridgeStatusAt : ℕ → String
  rate : ℚ
  order : PaycrestOrder
  payoutStatusAt : ℕ → String

/-- Observables of one off-ramp route run: the HTTP response, the settlement
transfers submitted on Base, and the amounts passed to `fetchPaycrestRate`. -/
structure OffRampOutcome : Type where
  response : ApiResponse
  transfers : List BaseTransfer
  rateCalls : List ℚ
deriving DecidableEq, Repr

/-- Embedding of the off-ramp route `POST` handler, step for step: validate;
fetch the swap and require `user_transfer_pending` plus a deposit action;
gasless Starknet transfer (an incompatible account throws, landing in the
catch-all); poll LayerSwap every 5000 ms with a 300000 ms deadline with the
`bridgeTerminalStatuses` predicate — a timeout throws and lands in the
catch-all 500; return 500 `Bridge failed` when the polled status is
`failed`; otherwise fetch the Paycrest rate for `quote.receive_amount`,
create the order, run `executeBaseTransfer`, and poll the Paycrest order
every 10000 ms with a 600000 ms deadline (a timeout again lands in the
catch-all, after the transfer was already submitted). -/
def runOffRamp (env : OffRampEnv) : OffRampOutcome :=
  if env.validRequest = false then ⟨ApiResponse.invalidRequest, [], []⟩
  else if env.hasDepositAction = false ∨ env.swapStatus ≠ "user_transfer_pending" then
    ⟨ApiResponse.invalidSwapState, [], []⟩
  else if env.gaslessCompatible = false then ⟨ApiResponse.internalError, [], []⟩
  else
    match pollWithTimeout env.bridgeStatusAt (fun _ => 0) isBridgeTerminal 5000 300000 with
    | none => ⟨ApiResponse.internalError, [], []⟩
    | some (Except.error _, _, _) => ⟨ApiResponse.internalError, [], []⟩
    | some (Except.ok bridgeStatus, _, _) =>
      if bridgeStatus = "failed" then ⟨ApiResponse.bridgeFailed, [], []⟩
      else
        let rateCalls := [env.quote.receive_amount]
        let transferRes := executeBaseTransfer [] env.order.receiveAddress
          env.quote.receive_amount env.order.senderFee env.order.transactionFee
        match pollWithTimeout env.payoutStatusAt (fun _ => 0) isPaycrestTerminal 10000 600000 with
        | none => ⟨ApiResponse.internalError, transferRes.1, rateCalls⟩
        | some (Except.error _, _, _) => ⟨ApiResponse.internalError, transferRes.1, rateCalls⟩
        | some (Except.ok finalStatus, _, _) =>
          ⟨ApiResponse.success finalStatus, transferRes.1, rateCalls⟩

/-- Parsed Paycrest webhook body (types/offramp.ts). -/
structure PaycrestWebhookBody : Type where
  orderId : String
  status : String
  timestamp : String
deriving DecidableEq, Repr

/-- Responses of the webhook route: 401 missing signature, 401 invalid
signature, 200 `{received: true}`, and the catch-all 500 (reached when
`JSON.parse` throws on the raw body). -/
inductive WebhookResponse : Type
  | missingSignature
  | invalidSignature
  | received
  | processingFailed
deriving DecidableEq, Repr

/-- HTTP status code of each webhook response. -/
def webhookStatusCode : WebhookResponse → ℕ
  | WebhookResponse.missingSignature => 401
  | WebhookResponse.invalidSignature => 401
  | WebhookResponse.received => 200
  | WebhookResponse.processingFailed => 500

/-- Embedding of the webhook route `POST` handler.  `hmacHex secret body` is
the hex digest `createHmac("sha256", secret).update(body).digest("hex")` and
`parseBody` is `JSON.parse` followed by the cast to `PaycrestWebhookBody`
(`none` models a parse throw); both are external functions taken as
parameters.  `store` models the persisted order-status records: the handler
never touches them (the database update in the source is commented out), so
the store is returned unchanged on every path.  Order of checks follows the
source: missing header first, then `verifySignature` (string equality of the
header with the recomputed digest), then the parse, then the status switch
(log only) and `{received: true}`. -/
def webhookPOST (hmacHex : String → String → String)
    (parseBody : String → Option PaycrestWebhookBody)
    (secret : String) (sigHeader : Option String) (rawBody : String)
    (store : List (String × String)) : WebhookResponse × List (String × String) :=
  match sigHeader with
  | none => (WebhookResponse.missingSignature, store)
  | some signature =>
    if signature = hmacHex secret rawBody then
      match parseBody rawBody with
      | none => (WebhookResponse.processingFailed, store)
      | some _payload => (WebhookResponse.received, store)
    else (WebhookResponse.invalidSignature, store)

/-- Sample LayerSwap quote with distinct `receive_amount` (100) and
`min_receive_amount` (99). -/
def sampleQuote : LayerSwapQuote := ⟨100, 99, 1, 1, 2⟩

/-- Sample Paycrest order with sender fee 1 and transaction fee 1. -/
def sampleOrder : PaycrestOrder := ⟨"po1", "0xrecv", 1, 1⟩

/-- Valid request whose swap status polls as `failed` forever. -/
def failedBridgeEnv : OffRampEnv :=
  { validRequest := true, swapStatus := "user_transfer_pending", hasDepositAction := true,
    quote := sampleQuote, gaslessCompatible := true,
    bridgeStatusAt := fun _ => "failed", rate := 1500,
    order := sampleOrder, payoutStatusAt := fun _ => "settled" }

/-- Valid request whose swap status polls as `expired` forever. -/
def expiredBridgeEnv : OffRampEnv :=
  { validRequest := true, swapStatus := "user_transfer_pending", hasDepositAction := true,
    quote := sampleQuote, gaslessCompatible := true,
    bridgeStatusAt := fun _ => "expired", rate := 1500,
    order := sampleOrder, payoutStatusAt := fun _ => "settled" }

/-- Valid request whose swap completes on the first poll and whose payout
order settles on the first poll. -/
def settledEnv : OffRampEnv :=
  { validRequest := true, swapStatus := "user_transfer_pending", hasDepositAction := true,
    quote := sampleQuote, gaslessCompatible := true,
    bridgeStatusAt := fun _ => "completed", rate := 1500,
    order := sampleOrder, payoutStatusAt := fun _ => "settled" }

/-- Valid request whose swap completes on the first poll but whose payout
order stays `pending` forever, so the payout poll times out. -/
def pendingPayoutEnv : OffRampEnv :=
  { validRequest := true, swapStatus := "user_transfer_pending", hasDepositAction := true,
    quote := sampleQuote, gaslessCompatible := true,
    bridgeStatusAt := fun _ => "completed", rate := 1500,
    order := sampleOrder, payoutStatusAt := fun _ => "pending" }

/-- Rat.floor is the floor of the FloorRing instance on `ℚ` (the instance is
built from `Rat.floor`). -/
theorem ratFloor_eq_intFloor (q : ℚ) : Rat.floor q = ⌊q⌋ := rfl

/-- Fuel sufficiency: with a positive interval, the loop with enough fuel
never returns `none`. -/
theorem pollAux_total {T : Type} (f : ℕ → T) (lat : ℕ → ℕ) (cond : T → Bool)
    (interval timeout : ℕ) (hi : 0 < interval) :
    ∀ fuel e n, timeout < fuel + e → 1 ≤ fuel →
      ∃ out, pollAux f lat cond interval timeout fuel e n = some out := by
  intro fuel
  induction fuel with
  | zero => intro e n _ h1; omega
  | succ fuel ih =>
    intro e n hlt _
    by_cases he : e < timeout
    · by_cases hc : cond (f n) = true
      · exact ⟨(Except.ok (f n), [PollEv.fetch n], e + lat n), by simp [pollAux, he, hc]⟩
      · rw [Bool.not_eq_true] at hc
        have h1 : 1 ≤ fuel := by omega
        have h2 : timeout < fuel + (e + lat n + interval) := by omega
        obtain ⟨⟨res, evs, ef⟩, hout⟩ := ih (e + lat n + interval) (n + 1) h2 h1
        exact ⟨(res, PollEv.fetch n :: PollEv.sleep :: evs, ef),
          by simp [pollAux, he, hc, hout]⟩
    · exact ⟨(Except.error "Polling timeout exceeded", [], e), by simp [pollAux, he]⟩

/-- If no fetched value is ever terminal, any produced outcome is the timeout
error. -/
theorem pollAux_error_of_never {T : Type} (f : ℕ → T) (lat : ℕ → ℕ)
    (cond : T → Bool) (interval timeout : ℕ)
    (hcond : ∀ k, cond (f k) = false) :
    ∀ fuel e n res evs ef,
      pollAux f lat cond interval timeout fuel e n = some (res, evs, ef) →
        res = Except.error "Polling timeout exceeded" := by
  intro fuel
  induction fuel with
  | zero => intro e n res evs ef h; simp [pollAux] at h
  | succ fuel ih =>
    intro e n res evs ef h
    by_cases he : e < timeout
    · simp [pollAux, he, hcond n] at h
      rcases hrec : pollAux f lat cond interval timeout fuel (e + lat n + interval) (n + 1) with
        _ | ⟨res', evs', ef'⟩
      · rw [hrec] at h; simp at h
      · rw [hrec] at h
        simp at h
        obtain ⟨h1, _, _⟩ := h
        exact h1 ▸ ih (e + lat n + interval) (n + 1) res' evs' ef' hrec
    · simp [pollAux, he] at h
      exact h.1.symm

/-- With a positive interval, a run in which no fetched value is ever
terminal ends with the thrown `Polling timeout exceeded` error. -/
theorem pollWithTimeout_timeout_of_never {T : Type} (f : ℕ → T) (lat : ℕ → ℕ)
    (cond : T → Bool) (interval timeout : ℕ) (hi : 0 < interval)
    (hcond : ∀ k, cond (f k) = false) :
    ∃ evs ef, pollWithTimeout f lat cond interval timeout =
      some (Except.error "Polling timeout exceeded", evs, ef) := by
  obtain ⟨⟨res, evs, ef⟩, hout⟩ :=
    pollAux_total f lat cond interval timeout hi (timeout + 1) 0 0 (by omega) (by omega)
  have hres := pollAux_error_of_never f lat cond interval timeout hcond
    (timeout + 1) 0 0 res evs ef hout
  exact ⟨evs, ef, by rw [pollWithTimeout, hout, hres]⟩

/-- If the very first fetch is terminal and the deadline is positive, the
poll returns the first fetched value after exactly one fetch and no sleep. -/
theorem pollWithTimeout_first {T : Type} (f : ℕ → T) (lat : ℕ → ℕ)
    (cond : T → Bool) (interval timeout : ℕ) (ht : 0 < timeout)
    (hc : cond (f 0) = true) :
    pollWithTimeout f lat cond interval timeout =
      some (Except.ok (f 0), [PollEv.fetch 0], lat 0) := by
  rw [pollWithTimeout]
  simp [pollAux, ht, hc]

/-- Elapsed-time invariant: if every fetch latency is at most `L`, the final
elapsed time never exceeds `timeout + L + interval`. -/
theorem pollAux_elapsed_le {T : Type} (f : ℕ → T) (lat : ℕ → ℕ)
    (cond : T → Bool) (interval timeout L : ℕ) (hL : ∀ k, lat k ≤ L) :
    ∀ fuel e n res evs ef,
      pollAux f lat cond interval timeout fuel e n = some (res, evs, ef) →
        e ≤ timeout + L + interval → ef ≤ timeout + L + interval := by
  intro fuel
  induction fuel with
  | zero => intro e n res evs ef h; simp [pollAux] at h
  | succ fuel ih =>
    intro e n res evs ef h he'
    by_cases he : e < timeout
    · by_cases hc : cond (f n) = true
      · simp [pollAux, he, hc] at h
        have := hL n
        omega
      · rw [Bool.not_eq_true] at hc
        simp [pollAux, he, hc] at h
        rcases hrec : pollAux f lat cond interval timeout fuel (e + lat n + interval) (n + 1) with
          _ | ⟨res', evs', ef'⟩
        · rw [hrec] at h; simp at h
        · rw [hrec] at h
          simp at h
          obtain ⟨_, _, h3⟩ := h
          have hlatn := hL n
          exact h3 ▸ ih (e + lat n + interval) (n + 1) res' evs' ef' hrec (by omega)
    · simp [pollAux, he] at h
      omega

/-- A successful poll run ends with a fetch event: no sleep follows the final
fetch on the success path. -/
theorem pollAux_ok_last {T : Type} (f : ℕ → T) (lat : ℕ → ℕ) (cond : T → Bool)
    (interval timeout : ℕ) :
    ∀ fuel e n r evs ef,
      pollAux f lat cond interval timeout fuel e n = some (Except.ok r, evs, ef) →
        ∃ m, evs.getLast? = some (PollEv.fetch m) := by
  intro fuel
  induction fuel with
  | zero => intro e n r evs ef h; simp [pollAux] at h
  | succ fuel ih =>
    intro e n r evs ef h
    by_cases he : e < timeout
    · by_cases hc : cond (f n) = true
      · simp [pollAux, he, hc] at h
        exact ⟨n, by simp [h.2.1.symm]⟩
      · rw [Bool.not_eq_true] at hc
        simp [pollAux, he, hc] at h
        rcases hrec : pollAux f lat cond interval timeout fuel (e + lat n + interval) (n + 1) with
          _ | ⟨res', evs', ef'⟩
        · rw [hrec] at h; simp at h
        · rw [hrec] at h
          simp at h
          obtain ⟨h1, h2, _⟩ := h
          obtain ⟨m, hm⟩ := ih (e + lat n + interval) (n + 1) r evs' ef' (by rw [hrec, h1])
          have hne : evs' ≠ [] := by
            intro hnil
            rw [hnil] at hm
            simp at hm
          obtain ⟨x, xs, rfl⟩ := List.exists_cons_of_ne_nil hne
          exact ⟨m, by rw [← h2]; simpa using hm⟩
    · simp [pollAux, he] at h

/-- A timed-out poll run has an empty trace (deadline already past on entry)
or ends with exactly one sleep right after the final fetch. -/
theorem pollAux_error_trace {T : Type} (f : ℕ → T) (lat : ℕ → ℕ)
    (cond : T → Bool) (interval timeout : ℕ) :
    ∀ fuel e n msg evs ef,
      pollAux f lat cond interval timeout fuel e n = some (Except.error msg, evs, ef) →
        evs = [] ∨ ∃ pre m, evs = pre ++ [PollEv.fetch m, PollEv.sleep] := by
  intro fuel
  induction fuel with
  | zero => intro e n msg evs ef h; simp [pollAux] at h
  | succ fuel ih =>
    intro e n msg evs ef h
    by_cases he : e < timeout
    · by_cases hc : cond (f n) = true
      · simp [pollAux, he, hc] at h
      · rw [Bool.not_eq_true] at hc
        simp [pollAux, he, hc] at h
        rcases hrec : pollAux f lat cond interval timeout fuel (e + lat n + interval) (n + 1) with
          _ | ⟨res', evs', ef'⟩
        · rw [hrec] at h; simp at h
        · rw [hrec] at h
          simp at h
          obtain ⟨h1, h2, _⟩ := h
          rcases ih (e + lat n + interval) (n + 1) msg evs' ef' (by rw [hrec, h1]) with
            hnil | ⟨pre, m, hpre⟩
          · exact Or.inr ⟨[], n, by rw [← h2, hnil]; rfl⟩
          · exact Or.inr ⟨PollEv.fetch n :: PollEv.sleep :: pre, m, by rw [← h2, hpre]; rfl⟩
    · exact Or.inl (by simp [pollAux, he] at h; exact h.2.1)

/-- When the deadline has not yet passed on entry, a run performs its fetch
first: the head of the trace is the fetch of the current index. -/
theorem pollAux_head_fetch {T : Type} (f : ℕ → T) (lat : ℕ → ℕ) (cond : T → Bool)
    (interval timeout : ℕ) (fuel e n : ℕ) (res : Except String T)
    (evs : List PollEv) (ef : ℕ)
    (h : pollAux f lat cond interval timeout (fuel + 1) e n = some (res, evs, ef))
    (he : e < timeout) : evs.head? = some (PollEv.fetch n) := by
  by_cases hc : cond (f n) = true
  · simp [pollAux, he, hc] at h
    rw [← h.2.1]
    rfl
  · rw [Bool.not_eq_true] at hc
    simp [pollAux, he, hc] at h
    rcases hrec : pollAux f lat cond interval timeout fuel (e + lat n + interval) (n + 1) with
      _ | ⟨res', evs', ef'⟩
    · rw [hrec] at h; simp at h
    · rw [hrec] at h
      simp at h
      rw [← h.2.1]
      rfl

/-- Claim C7 (amended): for every fetch function, terminal predicate,
positive interval, positive timeout and latency bound `L`, `pollWithTimeout`
produces an outcome whose trace starts with a fetch (the fetch is never
skipped), whose total elapsed time is at most `timeout + L + interval`
(deadline plus at most one fetch latency and one interval), whose trace on
success ends with the final fetch (no sleep after it), and whose trace on
timeout ends with exactly one sleep directly after the final fetch — the
source sleeps once after the last unsuccessful fetch before the deadline
check throws. -/
theorem pollWithTimeout_contract {T : Type} (f : ℕ → T) (lat : ℕ → ℕ)
    (cond : T → Bool) (interval timeout L : ℕ) (hi : 0 < interval)
    (ht : 0 < timeout) (hL : ∀ k, lat k ≤ L) :
    ∃ res evs ef,
      pollWithTimeout f lat cond interval timeout = some (res, evs, ef) ∧
      evs.head? = some (PollEv.fetch 0) ∧
      ef ≤ timeout + L + interval ∧
      (∀ r, res = Except.ok r → ∃ m, evs.getLast? = some (PollEv.fetch m)) ∧
      (∀ msg, res = Except.error msg →
        ∃ pre m, evs = pre ++ [PollEv.fetch m, PollEv.sleep]) := by
  obtain ⟨⟨res, evs, ef⟩, hout⟩ :=
    pollAux_total f lat cond interval timeout hi (timeout + 1) 0 0 (by omega) (by omega)
  refine ⟨res, evs, ef, hout, ?_, ?_, ?_, ?_⟩
  · exact pollAux_head_fetch f lat cond interval timeout timeout 0 0 res evs ef hout ht
  · exact pollAux_elapsed_le f lat cond interval timeout L hL (timeout + 1) 0 0
      res evs ef hout (by omega)
  · intro r hr
    exact pollAux_ok_last f lat cond interval timeout (timeout + 1) 0 0 r evs ef
      (by rw [hout, hr])
  · intro msg hmsg
    rcases pollAux_error_trace f lat cond interval timeout (timeout + 1) 0 0 msg evs ef
        (by rw [hout, hmsg]) with hnil | hshape
    · exfalso
      have hhead := pollAux_head_fetch f lat cond interval timeout timeout 0 0 res evs ef hout ht
      rw [hnil] at hhead
      simp at hhead
    · exact hshape

/-- Witness for C7 (amended) at a concrete instance: constant non-terminal
fetch, zero latency, interval 1, timeout 1. -/
theorem pollWithTimeout_contract_witness :
    ∃ res evs ef,
      pollWithTimeout (fun _ => "x") (fun _ => 0) (fun _ => false) 1 1 = some (res, evs, ef) ∧
      evs.head? = some (PollEv.fetch 0) ∧
      ef ≤ 1 + 0 + 1 ∧
      (∀ r, res = Except.ok r → ∃ m, evs.getLast? = some (PollEv.fetch m)) ∧
      (∀ msg, res = Except.error msg →
        ∃ pre m, evs = pre ++ [PollEv.fetch m, PollEv.sleep]) :=
  pollWithTimeout_contract (fun _ => "x") (fun _ => 0) (fun _ => false) 1 1 0
    (by decide) (by decide) (fun _ => Nat.le.refl)

/-- Counterexample to claim C7 as stated: with positive interval 1 and
positive timeout 1 and a never-terminal fetch, the run times out with trace
`[fetch 0, sleep]` — the last event is a sleep that happens after the final
fetch, contradicting the claim that the loop never sleeps after the final
fetch. -/
theorem pollWithTimeout_sleeps_after_final_fetch :
    pollWithTimeout (fun _ => (0 : ℕ)) (fun _ => 0) (fun _ => false) 1 1 =
      some (Except.error "Polling timeout exceeded", [PollEv.fetch 0, PollEv.sleep], 1) ∧
    [PollEv.fetch 0, PollEv.sleep].getLast? = some PollEv.sleep := by
  exact ⟨rfl, rfl⟩

/-- Claim C1 (amended): `executeBaseTransfer` has no idempotency guard.
Every invocation unconditionally submits one more transfer — there is no
recorded-transaction-hash lookup, no rejection path and no `DoubleSpendGuard`
error in the source — so invoking the settlement step twice for the same
payout order submits two transfers. -/
theorem executeBaseTransfer_no_guard (chain : List BaseTransfer) (toAddr : String)
    (amount senderFee txFee : ℚ) :
    (executeBaseTransfer chain toAddr amount senderFee txFee).1.length = chain.length + 1 ∧
    (executeBaseTransfer (executeBaseTransfer chain toAddr amount senderFee txFee).1
        toAddr amount senderFee txFee).1.length = chain.length + 2 := by
  constructor <;> simp [executeBaseTransfer]

/-- Counterexample to claim C1 as stated: invoking the settlement-transfer
step a second time for the same payout order (same receive address and
amounts, transaction hash already recorded on chain from the first call) is
not rejected — the wallet ends up with two submitted transfers, violating
the at-most-one-transfer-per-payout-order property. -/
theorem executeBaseTransfer_double_spend :
    (executeBaseTransfer (executeBaseTransfer [] "0xrecv" 100 1 1).1 "0xrecv" 100 1 1).1.length = 2 ∧
    ¬ (executeBaseTransfer (executeBaseTransfer [] "0xrecv" 100 1 1).1 "0xrecv" 100 1 1).1.length ≤ 1 := by
  constructor <;> simp [executeBaseTransfer]

/-- Claim C4 (amended): the settlement transfer always converts the amount
`receive_amount + senderFee + transactionFee` into base units with the
6-decimal precision of USDC (`10 ^ 6`), independent of the request token —
the exponent is hard-coded in the source. -/
theorem executeBaseTransfer_usdc_decimals (chain : List BaseTransfer) (toAddr : String)
    (amount senderFee txFee : ℚ) :
    (executeBaseTransfer chain toAddr amount senderFee txFee).1 =
      chain ++ [⟨toAddr, Rat.floor ((amount + senderFee + txFee) * 10 ^ tokenDecimals "USDC")⟩] := by
  simp [executeBaseTransfer, tokenDecimals]

/-- Counterexample to claim C4 as stated: for the supported token DAI the
declared decimal precision is 18, but a transfer of 1 DAI (no fees) submits
`10 ^ 6` base units, not the `10 ^ 18` that conversion with the declared
precision would give. -/
theorem executeBaseTransfer_wrong_decimals_for_dai :
    (executeBaseTransfer [] "0xrecv" 1 0 0).1 = [⟨"0xrecv", 10 ^ 6⟩] ∧
    tokenDecimals "DAI" = 18 ∧
    Rat.floor (((1 : ℚ) + 0 + 0) * 10 ^ tokenDecimals "DAI") ≠ (10 : ℤ) ^ 6 := by
  refine ⟨?_, rfl, ?_⟩
  · simp [executeBaseTransfer, ratFloor_eq_intFloor]
    norm_num
  · have hd : tokenDecimals "DAI" = 18 := rfl
    rw [ratFloor_eq_intFloor, hd]
    norm_num

/-- Claim C2 (amended): the await-bridge step of the route treats exactly
`fulfilled`, `completed`, `failed` as terminal.  On a valid request the saga
returns the explicit 500 `Bridge failed` exactly when the polled status
becomes `failed`, proceeds to settlement when it becomes `completed`, and a
swap whose status stays `expired` is never terminal for the poll: the poll
times out, the thrown timeout lands in the catch-all and the caller gets the
generic internal error with no settlement transfer attempted.  `expired` and
`cancelled` are not in the terminal set. -/
theorem offRampBridgeOutcomes (env : OffRampEnv) (hv : env.validRequest = true)
    (hd : env.hasDepositAction = true) (hs : env.swapStatus = "user_transfer_pending")
    (hg : env.gaslessCompatible = true) :
    (env.bridgeStatusAt 0 = "failed" → runOffRamp env = ⟨ApiResponse.bridgeFailed, [], []⟩)
    ∧ ((∀ n, env.bridgeStatusAt n = "expired") →
        runOffRamp env = ⟨ApiResponse.internalError, [], []⟩)
    ∧ (env.bridgeStatusAt 0 = "completed" →
        (runOffRamp env).response ≠ ApiResponse.bridgeFailed ∧
        (runOffRamp env).transfers.length = 1)
    ∧ isBridgeTerminal "expired" = false
    ∧ isBridgeTerminal "cancelled" = false := by
  refine ⟨?_, ?_, ?_, rfl, rfl⟩
  · intro hb
    have hcond : isBridgeTerminal (env.bridgeStatusAt 0) = true := by rw [hb]; rfl
    have hfirst := pollWithTimeout_first env.bridgeStatusAt (fun _ => 0)
      isBridgeTerminal 5000 300000 (by norm_num) hcond
    simp [runOffRamp, hv, hd, hs, hg, hfirst, hb]
  · intro hball
    have hcond : ∀ k, isBridgeTerminal (env.bridgeStatusAt k) = false :=
      fun k => by rw [hball k]; rfl
    obtain ⟨evs, ef, hp⟩ := pollWithTimeout_timeout_of_never env.bridgeStatusAt (fun _ => 0)
      isBridgeTerminal 5000 300000 (by norm_num) hcond
    simp [runOffRamp, hv, hd, hs, hg, hp]
  · intro hb
    have hcond : isBridgeTerminal (env.bridgeStatusAt 0) = true := by rw [hb]; rfl
    have hfirst := pollWithTimeout_first env.bridgeStatusAt (fun _ => 0)
      isBridgeTerminal 5000 300000 (by norm_num) hcond
    rcases hpay : pollWithTimeout env.payoutStatusAt (fun _ => 0)
        isPaycrestTerminal 10000 600000 with _ | ⟨res, pevs, pef⟩
    · constructor <;> simp [runOffRamp, hv, hd, hs, hg, hfirst, hb, hpay, executeBaseTransfer]
    · rcases res with msg | fs <;>
        constructor <;> simp [runOffRamp, hv, hd, hs, hg, hfirst, hb, hpay, executeBaseTransfer]

/-- Witness for C2 (amended): a swap polled as `failed` on the first poll
yields the explicit bridge-failure response and no transfer. -/
theorem offRampBridgeOutcomes_witness :
    runOffRamp failedBridgeEnv = ⟨ApiResponse.bridgeFailed, [], []⟩ :=
  (offRampBridgeOutcomes failedBridgeEnv rfl rfl rfl rfl).1 rfl

/-- Counterexample to claim C2 as stated: a valid request whose swap status
is `expired` on the first poll (and every later one) does not make the saga
return a surfaced bridge failure — `expired` is not in the terminal set of
the poll, so the poll times out and the route answers with the generic
internal error. -/
theorem offRampExpiredNotSurfaced :
    runOffRamp expiredBridgeEnv = ⟨ApiResponse.internalError, [], []⟩ ∧
    ApiResponse.internalError ≠ ApiResponse.bridgeFailed := by
  exact ⟨rfl, by simp⟩

/-- Claim C3 (amended): on a valid request the Paycrest conversion rate is
fetched exactly once, after bridge completion, for the quote's
`receive_amount` (not `min_receive_amount`); when the bridge fails or the
bridge poll times out, no rate is fetched at all. -/
theorem offRampPricingUsesReceiveAmount (env : OffRampEnv) (hv : env.validRequest = true)
    (hd : env.hasDepositAction = true) (hs : env.swapStatus = "user_transfer_pending")
    (hg : env.gaslessCompatible = true) :
    (env.bridgeStatusAt 0 = "completed" →
      (runOffRamp env).rateCalls = [env.quote.receive_amount])
    ∧ (env.bridgeStatusAt 0 = "failed" → (runOffRamp env).rateCalls = [])
    ∧ ((∀ n, env.bridgeStatusAt n = "expired") → (runOffRamp env).rateCalls = []) := by
  refine ⟨?_, ?_, ?_⟩
  · intro hb
    have hcond : isBridgeTerminal (env.bridgeStatusAt 0) = true := by rw [hb]; rfl
    have hfirst := pollWithTimeout_first env.bridgeStatusAt (fun _ => 0)
      isBridgeTerminal 5000 300000 (by norm_num) hcond
    rcases hpay : pollWithTimeout env.payoutStatusAt (fun _ => 0)
        isPaycrestTerminal 10000 600000 with _ | ⟨res, pevs, pef⟩
    · simp [runOffRamp, hv, hd, hs, hg, hfirst, hb, hpay]
    · rcases res with msg | fs <;> simp [runOffRamp, hv, hd, hs, hg, hfirst, hb, hpay]
  · intro hb
    have hcond : isBridgeTerminal (env.bridgeStatusAt 0) = true := by rw [hb]; rfl
    have hfirst := pollWithTimeout_first env.bridgeStatusAt (fun _ => 0)
      isBridgeTerminal 5000 300000 (by norm_num) hcond
    simp [runOffRamp, hv, hd, hs, hg, hfirst, hb]
  · intro hball
    have hcond : ∀ k, isBridgeTerminal (env.bridgeStatusAt k) = false :=
      fun k => by rw [hball k]; rfl
    obtain ⟨evs, ef, hp⟩ := pollWithTimeout_timeout_of_never env.bridgeStatusAt (fun _ => 0)
      isBridgeTerminal 5000 300000 (by norm_num) hcond
    simp [runOffRamp, hv, hd, hs, hg, hp]

/-- Witness for C3 (amended): the settled run fetches the rate exactly once,
for the quote's `receive_amount`. -/
theorem offRampPricingUsesReceiveAmount_witness :
    (runOffRamp settledEnv).rateCalls = [settledEnv.quote.receive_amount] :=
  (offRampPricingUsesReceiveAmount settledEnv rfl rfl rfl rfl).1 rfl

/-- Counterexample to claim C3 as stated: on a quote with
`receive_amount = 100` and `min_receive_amount = 99`, the single rate fetch
of the saga is for 100, not for `min_receive_amount`. -/
theorem offRampPricingNotMinReceive :
    (runOffRamp settledEnv).rateCalls = [settledEnv.quote.receive_amount] ∧
    (runOffRamp settledEnv).rateCalls ≠ [settledEnv.quote.min_receive_amount] := by
  refine ⟨rfl, ?_⟩
  have h1 : (runOffRamp settledEnv).rateCalls = [(100 : ℚ)] := rfl
  have h2 : settledEnv.quote.min_receive_amount = (99 : ℚ) := rfl
  rw [h1, h2]
  simp only [ne_eq, List.cons.injEq, and_true]
  norm_num

/-- Claim C5 (amended): when a polling wait exceeds its deadline the poll
throws an `Error` whose message `Polling timeout exceeded` is the only thing
distinguishing it from other thrown errors; the route's catch-all converts
it — like every other thrown error — into the generic HTTP 500
`Internal server error`, so the caller receives a generic internal error,
not a distinct `pending` outcome (the settlement transfer submitted before
the payout poll is nonetheless on chain). -/
theorem offRampTimeoutIsGenericError (env : OffRampEnv) (hv : env.validRequest = true)
    (hd : env.hasDepositAction = true) (hs : env.swapStatus = "user_transfer_pending")
    (hg : env.gaslessCompatible = true) (hb : env.bridgeStatusAt 0 = "completed")
    (hpend : ∀ n, isPaycrestTerminal (env.payoutStatusAt n) = false) :
    (runOffRamp env).response = ApiResponse.internalError ∧
    (runOffRamp env).transfers.length = 1 ∧
    (∃ evs ef, pollWithTimeout env.payoutStatusAt (fun _ => 0) isPaycrestTerminal 10000 600000 =
      some (Except.error "Polling timeout exceeded", evs, ef)) := by
  have hcond : isBridgeTerminal (env.bridgeStatusAt 0) = true := by rw [hb]; rfl
  have hfirst := pollWithTimeout_first env.bridgeStatusAt (fun _ => 0)
    isBridgeTerminal 5000 300000 (by norm_num) hcond
  obtain ⟨evs, ef, hp⟩ := pollWithTimeout_timeout_of_never env.payoutStatusAt (fun _ => 0)
    isPaycrestTerminal 10000 600000 (by norm_num) hpend
  refine ⟨?_, ?_, ⟨evs, ef, hp⟩⟩ <;>
    simp [runOffRamp, hv, hd, hs, hg, hfirst, hb, hp, executeBaseTransfer]

/-- Witness for C5 (amended) at the concrete forever-pending environment. -/
theorem offRampTimeoutIsGenericError_witness :
    (runOffRamp pendingPayoutEnv).response = ApiResponse.internalError ∧
    (runOffRamp pendingPayoutEnv).transfers.length = 1 :=
  ⟨(offRampTimeoutIsGenericError pendingPayoutEnv rfl rfl rfl rfl rfl (fun _ => rfl)).1,
   (offRampTimeoutIsGenericError pendingPayoutEnv rfl rfl rfl rfl rfl (fun _ => rfl)).2.1⟩

/-- Counterexample to claim C5 as stated: a payout poll that exceeds its
deadline makes the route answer with the generic catch-all internal error —
the caller does not receive a distinct `pending` report. -/
theorem offRampTimeoutNotPending :
    (runOffRamp pendingPayoutEnv).response = ApiResponse.internalError ∧
    ApiResponse.internalError ≠ ApiResponse.success "pending" := by
  exact ⟨rfl, by simp⟩

/-- Unfolding of a mapped power range: the delays of the first attempt plus
the shifted rest. -/
theorem range_map_pow_succ (base i c : ℕ) :
    (List.range (c + 1)).map (fun k => base * 2 ^ (i + k)) =
      base * 2 ^ i :: (List.range c).map (fun k => base * 2 ^ (i + 1 + k)) := by
  have hfun : ((fun k => base * 2 ^ (i + k)) ∘ Nat.succ) = fun k => base * 2 ^ (i + 1 + k) := by
    funext k
    show base * 2 ^ (i + (k + 1)) = base * 2 ^ (i + 1 + k)
    rw [show i + (k + 1) = i + 1 + k from by omega]
  rw [List.range_succ_eq_map, List.map_cons, List.map_map, hfun]
  simp

/-- The retry loop performs at most `rem` invocations. -/
theorem backoffAux_calls_le {E T : Type} (op : ℕ → Except E T) (base : ℕ) :
    ∀ rem i, (backoffAux op base rem i).2.2 ≤ rem := by
  intro rem
  induction rem with
  | zero => intro i; simp [backoffAux]
  | succ rem ih =>
    intro i
    rcases hop : op i with e | t
    · by_cases h0 : rem = 0
      · simp [backoffAux, hop, h0]
      · have := ih (i + 1)
        simp only [backoffAux, hop, h0, if_false]
        omega
    · simp [backoffAux, hop]

/-- The retry loop performs at least one invocation when allowed any. -/
theorem backoffAux_calls_pos {E T : Type} (op : ℕ → Except E T) (base : ℕ) :
    ∀ rem i, 1 ≤ rem → 1 ≤ (backoffAux op base rem i).2.2 := by
  intro rem i h
  rcases rem with _ | rem
  · omega
  · rcases hop : op i with e | t
    · by_cases h0 : rem = 0
      · simp [backoffAux, hop, h0]
      · simp only [backoffAux, hop, h0, if_false]
        omega
    · simp [backoffAux, hop]

/-- The delays slept by the retry loop are exactly
`base * 2 ^ attempt` for the attempts before the last invocation. -/
theorem backoffAux_delays {E T : Type} (op : ℕ → Except E T) (base : ℕ) :
    ∀ rem i, (backoffAux op base rem i).2.1 =
      (List.range ((backoffAux op base rem i).2.2 - 1)).map (fun k => base * 2 ^ (i + k)) := by
  intro rem
  induction rem with
  | zero => intro i; simp [backoffAux]
  | succ rem ih =>
    intro i
    rcases hop : op i with e | t
    · by_cases h0 : rem = 0
      · simp [backoffAux, hop, h0]
      · have h1 : 1 ≤ rem := Nat.one_le_iff_ne_zero.mpr h0
        have hpos := backoffAux_calls_pos op base rem (i + 1) h1
        simp only [backoffAux, hop, h0, if_false]
        rw [ih (i + 1)]
        have hc : (backoffAux op base rem (i + 1)).2.2 - 1 + 1 =
            (backoffAux op base rem (i + 1)).2.2 + 1 - 1 := by omega
        rw [show (backoffAux op base rem (i + 1)).2.2 + 1 - 1 =
          ((backoffAux op base rem (i + 1)).2.2 - 1) + 1 from by omega]
        rw [range_map_pow_succ]
    · simp [backoffAux, hop]

/-- When every invocation fails, the retry loop runs all `rem` attempts,
sleeps the exponential delays between consecutive attempts, and re-raises the
error of the final attempt. -/
theorem backoffAux_all_fail {E T : Type} (op : ℕ → Except E T) (errf : ℕ → E) (base : ℕ)
    (hop : ∀ j, op j = Except.error (errf j)) :
    ∀ rem i, 1 ≤ rem → backoffAux op base rem i =
      (RetryOutcome.err (errf (i + rem - 1)),
       (List.range (rem - 1)).map (fun k => base * 2 ^ (i + k)), rem) := by
  intro rem
  induction rem with
  | zero => intro i h; omega
  | succ rem ih =>
    intro i _
    by_cases h0 : rem = 0
    · subst h0
      simp [backoffAux, hop i]
    · have h1 : 1 ≤ rem := Nat.one_le_iff_ne_zero.mpr h0
      simp only [backoffAux, hop i, h0, if_false]
      rw [ih (i + 1) h1]
      simp only [Prod.mk.injEq]
      refine ⟨?_, ?_, trivial⟩
      · have : i + 1 + rem - 1 = i + (rem + 1) - 1 := by omega
        rw [this]
      · rw [show rem + 1 - 1 = (rem - 1) + 1 from by omega, range_map_pow_succ]

/-- Claim C8: for `maxAttempts ≥ 1` the retry wrapper invokes the operation
at most `maxAttempts` times, sleeps `baseDelay * 2 ^ attempt` between
consecutive attempts, and when every attempt fails it performs exactly
`maxAttempts` invocations and re-raises the error of the final attempt
unchanged. -/
theorem exponentialBackoff_contract {E T : Type} (op : ℕ → Except E T) (errf : ℕ → E)
    (maxRetries : ℤ) (baseDelay : ℕ) (h1 : 1 ≤ maxRetries) :
    (exponentialBackoff op maxRetries baseDelay).2.2 ≤ maxRetries.toNat
    ∧ (exponentialBackoff op maxRetries baseDelay).2.1 =
        (List.range ((exponentialBackoff op maxRetries baseDelay).2.2 - 1)).map
          (fun k => baseDelay * 2 ^ k)
    ∧ ((∀ j, op j = Except.error (errf j)) →
        exponentialBackoff op maxRetries baseDelay =
          (RetryOutcome.err (errf (maxRetries.toNat - 1)),
           (List.range (maxRetries.toNat - 1)).map (fun k => baseDelay * 2 ^ k),
           maxRetries.toNat)) := by
  refine ⟨?_, ?_, ?_⟩
  · exact backoffAux_calls_le op baseDelay maxRetries.toNat 0
  · have h := backoffAux_delays op baseDelay maxRetries.toNat 0
    simpa using h
  · intro hop
    have h := backoffAux_all_fail op errf baseDelay hop maxRetries.toNat 0 (by omega)
    simpa using h

/-- Witness for C8 at a concrete instance: three allowed attempts, base delay
7, every attempt failing with its index: three invocations, delays 7 and 14,
and the error of attempt 2 re-raised. -/
theorem exponentialBackoff_contract_witness :
    exponentialBackoff (fun i => (Except.error i : Except ℕ Unit)) 3 7 =
      (RetryOutcome.err 2, [7, 14], 3) := by
  have h := (exponentialBackoff_contract (fun i => (Except.error i : Except ℕ Unit))
    (fun i => i) 3 7 (by norm_num)).2.2 (fun j => rfl)
  rw [h]
  rfl

/-- Claim C10: called with a non-positive `maxRetries`, the retry wrapper
performs zero invocations of the operation, sleeps nothing, and resolves
silently (the JS function falls off the loop and resolves to `undefined`),
raising no error. -/
theorem exponentialBackoff_nonpositive {E T : Type} (op : ℕ → Except E T)
    (baseDelay : ℕ) (maxRetries : ℤ) (h : maxRetries ≤ 0) :
    exponentialBackoff op maxRetries baseDelay = (RetryOutcome.silent, [], 0) := by
  unfold exponentialBackoff
  rw [Int.toNat_of_nonpos h]
  rfl

/-- Witness for C10: `maxRetries = -1` with an operation that would succeed —
it is never invoked and the wrapper resolves silently. -/
theorem exponentialBackoff_nonpositive_witness :
    exponentialBackoff (fun i => (Except.ok i : Except Unit ℕ)) (-1) 5 =
      (RetryOutcome.silent, [], 0) :=
  exponentialBackoff_nonpositive (fun i => Except.ok i) 5 (-1) (by norm_num)

/-- A string matching the private-key pattern starts with `0x` and is
nonempty. -/
theorem matchesPrivateKeyPattern_prefix (s : String)
    (h : matchesPrivateKeyPattern s = true) : startsWith0x s = true ∧ s ≠ "" := by
  simp only [matchesPrivateKeyPattern, Bool.and_eq_true, beq_iff_eq] at h
  obtain ⟨⟨h1, h2⟩, _⟩ := h
  refine ⟨h1, ?_⟩
  intro hnil
  rw [hnil] at h2
  simp at h2

/-- Every value `formatPrivateKey` returns matches `^0x[0-9a-fA-F]{64}$`. -/
theorem formatPrivateKey_ok_matches (pk : Option String) (s : String)
    (h : formatPrivateKey pk = Except.ok s) : matchesPrivateKeyPattern s = true := by
  rcases pk with _ | p
  · simp [formatPrivateKey] at h
  · by_cases hp : p = ""
    · simp [formatPrivateKey, hp] at h
    · by_cases hm : matchesPrivateKeyPattern (withHexPrefix p) = true
      · simp [formatPrivateKey, hp, hm] at h
        rw [← h]
        exact hm
      · simp [formatPrivateKey, hp, hm] at h

/-- Applying `formatPrivateKey` to one of its own outputs returns the output
unchanged. -/
theorem formatPrivateKey_idem (pk : Option String) (s : String)
    (h : formatPrivateKey pk = Except.ok s) :
    formatPrivateKey (some s) = Except.ok s := by
  have hm := formatPrivateKey_ok_matches pk s h
  obtain ⟨hpref, hne⟩ := matchesPrivateKeyPattern_prefix s hm
  simp [formatPrivateKey, hne, withHexPrefix, hpref, hm]

/-- `formatPrivateKey` throws precisely on an absent input, the empty string,
or an input that after the optional `0x` prepend fails the 64-hex-digit
pattern. -/
theorem formatPrivateKey_error_iff (pk : Option String) :
    (∃ e, formatPrivateKey pk = Except.error e) ↔
      pk = none ∨ pk = some "" ∨
        ∃ s, pk = some s ∧ matchesPrivateKeyPattern (withHexPrefix s) = false := by
  rcases pk with _ | p
  · simp [formatPrivateKey]
  · by_cases hp : p = ""
    · subst hp
      simp [formatPrivateKey]
    · by_cases hm : matchesPrivateKeyPattern (withHexPrefix p) = true
      · simp [formatPrivateKey, hp, hm]
      · rw [Bool.not_eq_true] at hm
        simp [formatPrivateKey, hp, hm]

/-- Claim C9: `formatPrivateKey` is a normalizing projection — every
non-throwing result matches `^0x[0-9a-fA-F]{64}$`, the function is idempotent
on its own outputs, and it throws precisely when the input is absent or empty
or, after optionally prepending `0x`, does not consist of 64 hex digits. -/
theorem formatPrivateKey_normalizing :
    (∀ pk s, formatPrivateKey pk = Except.ok s → matchesPrivateKeyPattern s = true)
    ∧ (∀ pk s, formatPrivateKey pk = Except.ok s → formatPrivateKey (some s) = Except.ok s)
    ∧ (∀ pk, (∃ e, formatPrivateKey pk = Except.error e) ↔
        pk = none ∨ pk = some "" ∨
          ∃ s, pk = some s ∧ matchesPrivateKeyPattern (withHexPrefix s) = false) :=
  ⟨formatPrivateKey_ok_matches, formatPrivateKey_idem, formatPrivateKey_error_iff⟩

/-- Witness for C9 at a concrete bare 64-hex-digit key: the result gains the
`0x` prefix, matches the pattern, and is a fixed point. -/
theorem formatPrivateKey_normalizing_witness :
    matchesPrivateKeyPattern
        "0xaaaaaaaaaaaaaaaaaaaaaaaaaaaaaaaaaaaaaaaaaaaaaaaaaaaaaaaaaaaaaaaa" = true ∧
    formatPrivateKey
        (some "0xaaaaaaaaaaaaaaaaaaaaaaaaaaaaaaaaaaaaaaaaaaaaaaaaaaaaaaaaaaaaaaaa") =
      Except.ok "0xaaaaaaaaaaaaaaaaaaaaaaaaaaaaaaaaaaaaaaaaaaaaaaaaaaaaaaaaaaaaaaaa" :=
  ⟨formatPrivateKey_normalizing.1
      (some "aaaaaaaaaaaaaaaaaaaaaaaaaaaaaaaaaaaaaaaaaaaaaaaaaaaaaaaaaaaaaaaa")
      "0xaaaaaaaaaaaaaaaaaaaaaaaaaaaaaaaaaaaaaaaaaaaaaaaaaaaaaaaaaaaaaaaa" rfl,
   formatPrivateKey_normalizing.2.1
      (some "aaaaaaaaaaaaaaaaaaaaaaaaaaaaaaaaaaaaaaaaaaaaaaaaaaaaaaaaaaaaaaaa")
      "0xaaaaaaaaaaaaaaaaaaaaaaaaaaaaaaaaaaaaaaaaaaaaaaaaaaaaaaaaaaaaaaaa" rfl⟩

/-- Claim C6 (amended): the webhook handler touches no state on any path; it
answers 401 exactly when the signature header is missing or differs from the
recomputed HMAC digest of the raw body (independent of payload content); and
once the signature is valid it answers `{received: true}` for every payload
the body parses to — but a signature-valid body on which `JSON.parse` throws
lands in the catch-all 500 instead. -/
theorem webhookPOST_contract (hmacHex : String → String → String)
    (parseBody : String → Option PaycrestWebhookBody) (secret : String)
    (sigHeader : Option String) (rawBody : String) (store : List (String × String)) :
    ((webhookPOST hmacHex parseBody secret sigHeader rawBody store).2 = store)
    ∧ (webhookStatusCode (webhookPOST hmacHex parseBody secret sigHeader rawBody store).1 = 401 ↔
        sigHeader = none ∨ ∃ s, sigHeader = some s ∧ s ≠ hmacHex secret rawBody)
    ∧ (∀ s p, sigHeader = some s → s = hmacHex secret rawBody → parseBody rawBody = some p →
        (webhookPOST hmacHex parseBody secret sigHeader rawBody store).1 =
          WebhookResponse.received)
    ∧ (∀ s, sigHeader = some s → s = hmacHex secret rawBody → parseBody rawBody = none →
        (webhookPOST hmacHex parseBody secret sigHeader rawBody store).1 =
          WebhookResponse.processingFailed) := by
  rcases sigHeader with _ | s
  · refine ⟨rfl, ?_, ?_, ?_⟩ <;> simp [webhookPOST, webhookStatusCode]
  · by_cases hsig : s = hmacHex secret rawBody
    · rcases hparse : parseBody rawBody with _ | p <;>
        refine ⟨?_, ?_, ?_, ?_⟩ <;>
          simp [webhookPOST, webhookStatusCode, hsig, hparse]
    · refine ⟨?_, ?_, ?_, ?_⟩
      · simp [webhookPOST, hsig]
      · simp [webhookPOST, webhookStatusCode, hsig]
      · intro s1 p h1 h2 _
        injection h1 with h1
        exact absurd (by rw [h1]; exact h2) hsig
      · intro s1 h1 h2 _
        injection h1 with h1
        exact absurd (by rw [h1]; exact h2) hsig

/-- Witness for C6 (amended): a header equal to the recomputed digest and a
parseable body produce `{received: true}` with the store untouched. -/
theorem webhookPOST_contract_witness :
    (webhookPOST (fun _ _ => "h") (fun _ => some ⟨"o1", "settled", "t"⟩) "secret"
        (some "h") "body" []).1 = WebhookResponse.received ∧
    (webhookPOST (fun _ _ => "h") (fun _ => some ⟨"o1", "settled", "t"⟩) "secret"
        (some "h") "body" []).2 = [] :=
  ⟨(webhookPOST_contract (fun _ _ => "h") (fun _ => some ⟨"o1", "settled", "t"⟩) "secret"
      (some "h") "body" []).2.2.1 "h" ⟨"o1", "settled", "t"⟩ rfl rfl rfl,
   (webhookPOST_contract (fun _ _ => "h") (fun _ => some ⟨"o1", "settled", "t"⟩) "secret"
      (some "h") "body" []).1⟩

/-- Counterexample to claim C6 as stated: a request whose signature header
equals the recomputed digest of the raw body `\x7b` (a body on which
`JSON.parse` throws, modelled by the parse function answering `none`) is
signature-valid yet answered with the catch-all 500, not with
`{received: true}`. -/
theorem webhookValidSignatureUnparseableBody :
    webhookPOST (fun _ _ => "h") (fun _ => none) "secret" (some "h") "\x7b" [] =
      (WebhookResponse.processingFailed, []) ∧
    WebhookResponse.processingFailed ≠ WebhookResponse.received := by
  exact ⟨rfl, by simp⟩
